import Mathlib

/-!
Verification of the event-study analytics engine of the yfinance_project
repository (files `src/strategy.py` and `src/analyser.py`).

A pandas DataFrame sliced around an event is modelled per column as a list of
pairs `(offset, value) : Int × ℚ`, listed in index order (the source sorts the
window by date, so offsets are strictly increasing).  A pandas Series keyed by
ticker is a `List (String × ℚ)`.  Machine floats are modelled by `ℚ`; a pandas
`NaN` entry is modelled by `Option.none`; `np.inf` sentinels and raised
exceptions are modelled by explicit constructors where they matter.
-/

namespace YF

/-- Result of the per-column recovery computation of `Strategy.recovery_days`:
`unbounded` models the `np.inf` sentinel, `days d` a recovery at offset `d`,
and `error` the unhandled `ValueError` that `post.idxmin()` raises on an
empty post-event selection. -/
inductive RecDays where
  | unbounded : RecDays
  | days : Int → RecDays
  | error : RecDays
deriving DecidableEq, Repr

/-- Minimum of a list in a linear order, as the pandas `Series.min` reduction
computes it over the values of a non-empty selection (the `default` on `[]`
never matters for the properties proved below). -/
def listMin {α : Type} [LinearOrder α] [Inhabited α] : List α → α
  | [] => default
  | [x] => x
  | x :: y :: t => min x (listMin (y :: t))

/-- Maximum of a list, as the pandas `Series.max` reduction computes it. -/
def listMax {α : Type} [LinearOrder α] [Inhabited α] : List α → α
  | [] => default
  | [x] => x
  | x :: y :: t => max x (listMax (y :: t))

/-- One step of the scan behind pandas `Series.idxmin`: fold over the remaining
rows keeping the current best `(label, value)` pair, replacing it only on a
strictly smaller value, so the first occurrence of the minimum wins. -/
def pickMin {α : Type} (best : α × ℚ) : List (α × ℚ) → α × ℚ
  | [] => best
  | q :: t => pickMin (if q.2 < best.2 then q else best) t

/-- One step of the scan behind pandas `Series.idxmax`: the best pair is
replaced only on a strictly larger value, so the first maximum wins. -/
def pickMax {α : Type} (best : α × ℚ) : List (α × ℚ) → α × ℚ
  | [] => best
  | q :: t => pickMax (if best.2 < q.2 then q else best) t

/-- pandas `Series.idxmin`: the label of the first row attaining the minimal
value; `none` models the `ValueError` raised on an empty series. -/
def idxmin {α : Type} : List (α × ℚ) → Option α
  | [] => none
  | p :: t => some (pickMin p t).1

/-- pandas `Series.idxmax`: the label of the first row attaining the maximal
value; `none` models the `ValueError` raised on an empty series. -/
def idxmax {α : Type} : List (α × ℚ) → Option α
  | [] => none
  | p :: t => some (pickMax p t).1

/-- The post-event part of `Strategy.recovery_days` (source lines 40-53):
given the pre-event peak and the rows at offsets strictly greater than 0,
take the trough label via `idxmin`, keep the rows from the trough onward,
keep those whose value is at least the peak, and return the first remaining
offset; an empty post-event selection makes `idxmin` raise (`error`). -/
def recover_from (prePeak : ℚ) : List (Int × ℚ) → RecDays
  | [] => RecDays.error
  | p :: t =>
    match ((p :: t).filter fun q => decide ((pickMin p t).1 ≤ q.1)).filter
        (fun q => decide (prePeak ≤ q.2)) with
    | [] => RecDays.unbounded
    | r :: _ => RecDays.days r.1

/-- Per-column `Strategy.recovery_days` (source lines 22-55): the pre-event
peak is the maximum over offsets strictly below 0 (`unbounded` if there are
none), then `recover_from` searches the offsets strictly above 0. -/
def recovery_days (rows : List (Int × ℚ)) : RecDays :=
  if (rows.filter fun p => decide (p.1 < 0)) = [] then RecDays.unbounded
  else recover_from (listMax ((rows.filter fun p => decide (p.1 < 0)).map Prod.snd))
    (rows.filter fun p => decide (0 < p.1))

/-- The recovery search policy as the specification words it: the pre-event
peak is the maximum over offsets strictly below 0 (unbounded sentinel if none
exist); the trough is the least offset attaining the minimum over offsets
strictly above 0; the result is the least offset from the trough onward whose
value is at least the peak, or unbounded if there is none.  The specification
leaves an empty post-event selection undefined; the `error` branch marks it. -/
def recovery_days_policy (rows : List (Int × ℚ)) : RecDays :=
  let pre := rows.filter fun p => decide (p.1 < 0)
  if pre = [] then RecDays.unbounded
  else
    let prePeak := listMax (pre.map Prod.snd)
    let post := rows.filter fun p => decide (0 < p.1)
    if post = [] then RecDays.error
    else
      let trough :=
        listMin ((post.filter fun r => decide (r.2 = listMin (post.map Prod.snd))).map Prod.fst)
      let qual :=
        (post.filter fun q => decide (prePeak ≤ q.2) && decide (trough ≤ q.1)).map Prod.fst
      if qual = [] then RecDays.unbounded else RecDays.days (listMin qual)

/-- Per-column `Strategy.max_drawdown` (source lines 13-20): one minus the
minimum normalised level over every row of the visible slice. -/
def max_drawdown_col (values : List ℚ) : ℚ := 1 - listMin values

/-- pandas label selection `series[labels]`: pick the entry for each requested
label in order; a missing label raises a `KeyError`, modelled by `none`. -/
def seriesSelect (s : List (String × ℚ)) : List String → Option (List (String × ℚ))
  | [] => some []
  | t :: ts =>
    match s.find? fun p => p.1 == t with
    | none => none
    | some p => (seriesSelect s ts).map fun rest => (t, p.2) :: rest

/-- `Strategy.max_drawdown` at table level: compute `1 - min` per column of the
normalised slice, then select the configured non-market tickers, raising
(`none`) when one of them has no column. -/
def max_drawdown (cols : List (String × List ℚ)) (tickers : List String) :
    Option (List (String × ℚ)) :=
  seriesSelect (cols.map fun c => (c.1, max_drawdown_col c.2)) tickers

/-- `Strategy.build_summary` restricted to what decides the claims about it:
the row index is the configured tickers filtered to those present in the
metrics index (silent exclusion), while `max_drawdown` is still invoked with
the full configured list, so its `KeyError` propagates (source lines 82-94). -/
def build_summary (metricsIndex : List String) (normCols : List (String × List ℚ))
    (tickers : List String) : Option (List String × List (String × ℚ)) :=
  let tks := tickers.filter fun t => decide (t ∈ metricsIndex)
  (max_drawdown normCols tickers).map fun dd => (tks, dd.filter fun p => decide (p.1 ∈ tks))

/-- pandas `DataFrame.pct_change` on one fully populated column: the first row
is `NaN` (`none`), and row `i+1` carries `p[i+1]/p[i] - 1`. -/
def pct_change : List ℚ → List (Option ℚ)
  | [] => []
  | v :: rest => none :: List.zipWith (fun a b => some (b / a - 1)) (v :: rest) rest

/-- pandas `dropna` on a fully populated single-column frame: keep the rows
that are present. -/
def dropna (l : List (Option ℚ)) : List ℚ := l.filterMap id

/-- The period returns `window.pct_change().dropna()` that `compute_beta` and
`post_event_volatility` feed into their statistics (analyser line 107,
strategy line 64). -/
def returnsOf (prices : List ℚ) : List ℚ := dropna (pct_change prices)

/-- Arithmetic mean of a list of rationals, as pandas computes it. -/
def mean (l : List ℚ) : ℚ := l.sum / (l.length : ℚ)

/-- pandas sample covariance (`ddof = 1`) of two aligned series: the sum of
products of deviations divided by `n - 1`; with `ℚ` division by zero equal to
0, the `n ≤ 1` cases where pandas yields `NaN` come out as 0 and are excluded
by a non-zero-variance hypothesis wherever they would matter. -/
def covar (xs ys : List ℚ) : ℚ :=
  (List.zipWith (fun x y => (x - mean xs) * (y - mean ys)) xs ys).sum / ((xs.length : ℚ) - 1)

/-- Per-column `Analyser.compute_beta` (source lines 103-122): covariance of
the sector's period returns with the market's, divided by the variance of the
market's period returns. -/
def compute_beta (sector market : List ℚ) : ℚ :=
  covar (returnsOf sector) (returnsOf market) / covar (returnsOf market) (returnsOf market)

/-- Per-column `Strategy.post_event_volatility` (source lines 59-66): restrict
to offsets at least 0, take period returns, drop the undefined first row, and
take the sample standard deviation.  The source returns the square root of the
sample variance; since `ℚ` has no square roots and every downstream use is an
order comparison, the payload carried here is that variance, and `none` models
the `NaN` that pandas `std` with `ddof = 1` yields on fewer than two return
observations. -/
def post_event_volatility (rows : List (Int × ℚ)) : Option ℚ :=
  if (returnsOf ((rows.filter fun p => decide (0 ≤ p.1)).map Prod.snd)).length ≤ 1 then none
  else
    some (covar (returnsOf ((rows.filter fun p => decide (0 ≤ p.1)).map Prod.snd))
      (returnsOf ((rows.filter fun p => decide (0 ≤ p.1)).map Prod.snd)))

/-- The only insufficiency report in the zoom callback
`Analyser.plot_event_interactive._update` (source lines 230-247): "not enough
data" is printed exactly when the visible slice has fewer than two rows. -/
def update_reports_insufficient (sliceLen : Nat) : Bool := decide (sliceLen < 2)

/-- The zoom callback builds the strategy summary (and with it the volatility
column) exactly when the visible slice has at least two rows (source lines
230, 239, 250-256); no check of the post-anchor row count is made anywhere. -/
def update_builds_summary (sliceLen : Nat) : Bool := decide (2 ≤ sliceLen)

/-- The anchor check of `Analyser.compute_metrics` (source line 91):
`np.isclose(v, 1.0)` with the numpy default tolerances, absolute `1e-8` and
relative `1e-5` against the reference value `1.0`. -/
def isCloseOne (v : ℚ) : Bool := decide (|v - 1| ≤ 1 / 100000000 + 1 / 100000)

/-- `Analyser.compute_metrics` (source lines 82-100): raise `ValueError`
(`none`) unless some entry of the slice passes the anchor check; otherwise
return, per column, `pre_return = 1/first - 1` and `post_return = last - 1`
from the first and last rows of the visible slice. -/
def compute_metrics (cols : List (String × List ℚ)) : Option (List (String × ℚ × ℚ)) :=
  if cols.any (fun c => c.2.any isCloseOne) then
    some (cols.map fun c => (c.1, 1 / c.2.headD 0 - 1, c.2.getLastD 0 - 1))
  else none

/-- One row of the strategy summary table, with the fields that
`Strategy.print_recommendations` reads; `days_to_recovery = none` models the
`np.inf` sentinel. -/
structure SummaryRow where
  volatility : ℚ
  post_return : ℚ
  days_to_recovery : Option Int
deriving DecidableEq, Repr

/-- The three picks printed by `Strategy.print_recommendations`. -/
structure Recs where
  defensive : Option String
  growth : Option String
  fastest : Option String
deriving DecidableEq, Repr

/-- `Strategy.print_recommendations` (source lines 99-137): nothing on an
empty summary; otherwise `defensive = idxmin(volatility)`,
`growth = idxmax(post_return)`, and `fastest` the `idxmin` over the rows whose
`days_to_recovery` is finite, after `inf` is replaced by `NaN` and skipped. -/
def print_recommendations (summary : List (String × SummaryRow)) : Option Recs :=
  match summary with
  | [] => none
  | _ :: _ =>
    some
      { defensive := idxmin (summary.map fun p => (p.1, p.2.volatility))
        growth := idxmax (summary.map fun p => (p.1, p.2.post_return))
        fastest :=
          idxmin (summary.filterMap fun p =>
            p.2.days_to_recovery.map fun d => (p.1, (Int.cast d : ℚ))) }

/-- Scenario A of the specification: normalised values `[1.2,1.1,1.0,0.7,0.9,1.3]`
at offsets `[-2,-1,0,1,2,3]`. -/
def scenarioA : List (Int × ℚ) :=
  [(-2, 12/10), (-1, 11/10), (0, 1), (1, 7/10), (2, 9/10), (3, 13/10)]

/-- Scenario B of the specification, market side: raw prices whose period
returns are `[0.01, 0.02, 0.03]`. -/
def scenarioB_market : List ℚ :=
  [1, 101/100, (101/100) * (102/100), (101/100) * (102/100) * (103/100)]

/-- Scenario B of the specification, sector side: raw prices whose period
returns are exactly double the market's. -/
def scenarioB_sector : List ℚ :=
  [1, 102/100, (102/100) * (104/100), (102/100) * (104/100) * (106/100)]

/-! Helper lemmas about the list reductions. -/

theorem listMin_mem {α : Type} [LinearOrder α] [Inhabited α] :
    ∀ l : List α, l ≠ [] → listMin l ∈ l := by
  intro l
  induction l with
  | nil => intro h; exact absurd rfl h
  | cons x t ih =>
    intro _
    cases t with
    | nil => simp [listMin]
    | cons y s =>
      rcases min_choice x (listMin (y :: s)) with h | h
      · rw [listMin, h]; exact List.mem_cons_self _ _
      · rw [listMin, h]; exact List.mem_cons_of_mem _ (ih (by simp))

theorem listMin_le {α : Type} [LinearOrder α] [Inhabited α] :
    ∀ l : List α, ∀ v ∈ l, listMin l ≤ v := by
  intro l
  induction l with
  | nil => intro v hv; cases hv
  | cons x t ih =>
    intro v hv
    cases t with
    | nil =>
      rcases List.mem_cons.mp hv with h | h
      · rw [listMin, h]
      · cases h
    | cons y s =>
      rcases List.mem_cons.mp hv with h | h
      · rw [listMin, h]; exact min_le_left _ _
      · exact le_trans (by rw [listMin]; exact min_le_right _ _) (ih v h)

theorem le_listMax {α : Type} [LinearOrder α] [Inhabited α] :
    ∀ l : List α, ∀ v ∈ l, v ≤ listMax l := by
  intro l
  induction l with
  | nil => intro v hv; cases hv
  | cons x t ih =>
    intro v hv
    cases t with
    | nil =>
      rcases List.mem_cons.mp hv with h | h
      · rw [listMax, h]
      · cases h
    | cons y s =>
      rcases List.mem_cons.mp hv with h | h
      · rw [listMax, h]; exact le_max_left _ _
      · exact le_trans (ih v h) (by rw [listMax]; exact le_max_right _ _)

theorem pickMin_eq_or {α : Type} :
    ∀ (l : List (α × ℚ)) (b : α × ℚ),
      pickMin b l = b ∨ (pickMin b l ∈ l ∧ (pickMin b l).2 < b.2) := by
  intro l
  induction l with
  | nil => intro b; left; rfl
  | cons q t ih =>
    intro b
    by_cases h : q.2 < b.2
    · rw [pickMin, if_pos h]
      rcases ih q with h1 | ⟨h1, h2⟩
      · right; rw [h1]; exact ⟨List.mem_cons_self _ _, h⟩
      · right; exact ⟨List.mem_cons_of_mem _ h1, lt_trans h2 h⟩
    · rw [pickMin, if_neg h]
      rcases ih b with h1 | ⟨h1, h2⟩
      · left; exact h1
      · right; exact ⟨List.mem_cons_of_mem _ h1, h2⟩

theorem pickMin_le_start {α : Type} :
    ∀ (l : List (α × ℚ)) (b : α × ℚ), (pickMin b l).2 ≤ b.2 := by
  intro l
  induction l with
  | nil => intro b; exact le_refl _
  | cons q t ih =>
    intro b
    by_cases h : q.2 < b.2
    · rw [pickMin, if_pos h]; exact le_trans (ih q) (le_of_lt h)
    · rw [pickMin, if_neg h]; exact ih b

theorem pickMin_le {α : Type} :
    ∀ (l : List (α × ℚ)) (b : α × ℚ), ∀ q ∈ l, (pickMin b l).2 ≤ q.2 := by
  intro l
  induction l with
  | nil => intro b q hq; cases hq
  | cons q0 t ih =>
    intro b q hq
    rcases List.mem_cons.mp hq with h | h
    · by_cases hc : q0.2 < b.2
      · rw [pickMin, if_pos hc, h]; exact pickMin_le_start t q0
      · rw [pickMin, if_neg hc, h]
        exact le_trans (pickMin_le_start t b) (le_of_not_lt hc)
    · by_cases hc : q0.2 < b.2
      · rw [pickMin, if_pos hc]; exact ih q0 q h
      · rw [pickMin, if_neg hc]; exact ih b q h

theorem pickMin_mem_cons {α : Type} (l : List (α × ℚ)) (b : α × ℚ) :
    pickMin b l ∈ b :: l := by
  rcases pickMin_eq_or l b with h | ⟨h, _⟩
  · rw [h]; exact List.mem_cons_self _ _
  · exact List.mem_cons_of_mem _ h

theorem pickMin_first {α : Type} [LinearOrder α] :
    ∀ (l : List (α × ℚ)) (b : α × ℚ),
      List.Pairwise (fun p q : α × ℚ => p.1 < q.1) (b :: l) →
      ∀ q ∈ b :: l, q.2 = (pickMin b l).2 → (pickMin b l).1 ≤ q.1 := by
  intro l
  induction l with
  | nil =>
    intro b _ q hq hval
    rcases List.mem_cons.mp hq with h | h
    · simp [pickMin, h]
    · cases h
  | cons q0 t ih =>
    intro b hp q hq hval
    have hp' := List.pairwise_cons.mp hp
    by_cases hc : q0.2 < b.2
    · rw [pickMin, if_pos hc] at hval ⊢
      rcases List.mem_cons.mp hq with h | h
      · exfalso
        have h1 : (pickMin q0 t).2 ≤ q0.2 := pickMin_le_start t q0
        rw [h] at hval
        rw [hval] at hc
        exact absurd (lt_of_lt_of_le hc h1) (lt_irrefl _)
      · exact ih q0 hp'.2 q h hval
    · rw [pickMin, if_neg hc] at hval ⊢
      have hbt : List.Pairwise (fun p q : α × ℚ => p.1 < q.1) (b :: t) := by
        refine List.pairwise_cons.mpr ⟨?_, (List.pairwise_cons.mp hp'.2).2⟩
        intro x hx
        exact hp'.1 x (List.mem_cons_of_mem _ hx)
      rcases List.mem_cons.mp hq with h | h
      · exact ih b hbt q (h ▸ List.mem_cons_self _ _) hval
      · rcases List.mem_cons.mp h with h2 | h2
        · rcases pickMin_eq_or t b with he | ⟨_, hlt⟩
          · rw [he]
            exact le_of_lt (h2 ▸ hp'.1 q0 (List.mem_cons_self _ _))
          · exfalso
            rw [h2] at hval
            exact hc (by rw [hval]; exact hlt)
        · exact ih b hbt q (List.mem_cons_of_mem _ h2) hval

theorem pickMin_snd_eq_listMin {α : Type} (p : (α × ℚ)) (t : List (α × ℚ)) :
    (pickMin p t).2 = listMin ((p :: t).map Prod.snd) := by
  apply le_antisymm
  · have hm : listMin ((p :: t).map Prod.snd) ∈ (p :: t).map Prod.snd :=
      listMin_mem _ (by simp)
    rcases List.mem_map.mp hm with ⟨q, hq, hq2⟩
    rw [← hq2]
    rcases List.mem_cons.mp hq with h | h
    · rw [h]; exact pickMin_le_start t p
    · exact pickMin_le t p q h
  · exact listMin_le _ _ (List.mem_map.mpr ⟨pickMin p t, pickMin_mem_cons t p, rfl⟩)

theorem pickMin_fst_eq_least_argmin {α : Type} [LinearOrder α] [Inhabited α]
    (p : (α × ℚ)) (t : List (α × ℚ))
    (hp : List.Pairwise (fun a b : α × ℚ => a.1 < b.1) (p :: t)) :
    (pickMin p t).1 =
      listMin (((p :: t).filter fun r =>
        decide (r.2 = listMin ((p :: t).map Prod.snd))).map Prod.fst) := by
  have hval : (pickMin p t).2 = listMin ((p :: t).map Prod.snd) :=
    pickMin_snd_eq_listMin p t
  have hmemf : (pickMin p t) ∈ (p :: t).filter fun r =>
      decide (r.2 = listMin ((p :: t).map Prod.snd)) := by
    rw [List.mem_filter]
    exact ⟨pickMin_mem_cons t p, by rw [decide_eq_true_eq]; exact hval⟩
  have hne : (((p :: t).filter fun r =>
      decide (r.2 = listMin ((p :: t).map Prod.snd))).map Prod.fst) ≠ [] := by
    intro hcon
    rw [List.map_eq_nil_iff] at hcon
    rw [hcon] at hmemf
    cases hmemf
  apply le_antisymm
  · rcases List.mem_map.mp (listMin_mem _ hne) with ⟨q, hq, hq1⟩
    rw [List.mem_filter, decide_eq_true_eq] at hq
    rw [← hq1]
    exact pickMin_first t p hp q hq.1 (hq.2.trans hval.symm)
  · exact listMin_le _ _ (List.mem_map.mpr ⟨pickMin p t, hmemf, rfl⟩)

theorem head_fst_eq_listMin {α : Type} [LinearOrder α] [Inhabited α]
    (p : (α × ℚ)) (t : List (α × ℚ))
    (hp : List.Pairwise (fun a b : α × ℚ => a.1 < b.1) (p :: t)) :
    p.1 = listMin ((p :: t).map Prod.fst) := by
  apply le_antisymm
  · rcases List.mem_map.mp (listMin_mem ((p :: t).map Prod.fst) (by simp)) with ⟨q, hq, hq1⟩
    rw [← hq1]
    rcases List.mem_cons.mp hq with h | h
    · rw [h]
    · exact le_of_lt ((List.pairwise_cons.mp hp).1 q h)
  · exact listMin_le _ _ (List.mem_map.mpr ⟨p, List.mem_cons_self _ _, rfl⟩)

/-- C1: for every normalised slice with strictly increasing offsets in which a
non-empty pre-event part entails a non-empty post-event part (the case the
specification's policy defines), `recovery_days` follows the specification's
search policy exactly: maximum over offsets strictly below 0 as the peak
(unbounded sentinel when none exist), argmin over offsets strictly above 0 as
the trough, and the first offset from the trough onward whose value reaches
the peak, unbounded when none does, with offset 0 excluded throughout. -/
theorem recovery_days_matches_policy (rows : List (Int × ℚ))
    (hs : List.Pairwise (fun p q : Int × ℚ => p.1 < q.1) rows)
    (hpp : rows.filter (fun p => decide (p.1 < 0)) ≠ [] →
      rows.filter (fun p => decide (0 < p.1)) ≠ []) :
    recovery_days rows = recovery_days_policy rows := by
  unfold recovery_days recovery_days_policy
  by_cases hpre : rows.filter (fun p => decide (p.1 < 0)) = []
  · simp [hpre]
  · have hpost := hpp hpre
    rw [if_neg hpre, if_neg hpre]
    obtain ⟨p, t, hpt⟩ : ∃ p t, rows.filter (fun p => decide (0 < p.1)) = p :: t := by
      cases h : rows.filter (fun p => decide (0 < p.1)) with
      | nil => exact absurd h hpost
      | cons a l => exact ⟨a, l, rfl⟩
    rw [hpt, if_neg (List.cons_ne_nil p t)]
    have hsp : List.Pairwise (fun a b : Int × ℚ => a.1 < b.1) (p :: t) := by
      rw [← hpt]; exact hs.filter _
    have htr := pickMin_fst_eq_least_argmin p t hsp
    rw [recover_from, List.filter_filter, ← htr]
    simp only []
    cases hrec : (p :: t).filter
        (fun q => decide ((listMax ((rows.filter fun p => decide (p.1 < 0)).map Prod.snd)) ≤ q.2)
          && decide ((pickMin p t).1 ≤ q.1)) with
    | nil => simp
    | cons r rest =>
      have hsr : List.Pairwise (fun a b : Int × ℚ => a.1 < b.1) (r :: rest) := by
        rw [← hrec]; exact hsp.filter _
      have hhead := head_fst_eq_listMin r rest hsr
      show RecDays.days r.1 = _
      rw [List.map_cons, if_neg (List.cons_ne_nil _ _), ← List.map_cons, ← hhead]

/-- Witness for C1: scenario A of the specification satisfies the hypotheses,
the code and the policy agree there, and the result is a recovery at offset 3. -/
theorem recovery_days_matches_policy_witness :
    recovery_days scenarioA = recovery_days_policy scenarioA
      ∧ recovery_days scenarioA = RecDays.days 3 :=
  ⟨recovery_days_matches_policy scenarioA (by decide) (by decide), by
    norm_num [recovery_days, recover_from, pickMin, listMax, listMin, scenarioA]
    intro h
    exact absurd h (List.cons_ne_nil _ _)⟩

/-- C9: on a normalised slice with at least one row at an offset strictly
below 0 but none strictly above 0, `recovery_days` hits `post.idxmin()` on an
empty selection and raises instead of returning the unbounded sentinel. -/
theorem recovery_days_empty_post_error (rows : List (Int × ℚ))
    (hpre : rows.filter (fun p => decide (p.1 < 0)) ≠ [])
    (hpost : rows.filter (fun p => decide (0 < p.1)) = []) :
    recovery_days rows = RecDays.error := by
  unfold recovery_days
  rw [if_neg hpre, hpost]
  rfl

/-- Witness for C9: the slice with the single row `(-1, 1/2)` has a pre-event
row and no post-event row, and the computation errors on it. -/
theorem recovery_days_empty_post_error_witness :
    recovery_days [((-1 : Int), (1 : ℚ)/2)] = RecDays.error :=
  recovery_days_empty_post_error [((-1 : Int), (1 : ℚ)/2)] (by decide) (by decide)

/-- C4: on any column of a normalised slice that contains the anchor value 1
(offset 0 present with data), `max_drawdown_col` equals one minus the minimum
over the entire visible slice - it is bounded by `1 - v` for every visible
value `v`, attains that bound at some visible value, and is non-negative. -/
theorem max_drawdown_col_spec (values : List ℚ) (h1 : (1 : ℚ) ∈ values) :
    (∃ v ∈ values, max_drawdown_col values = 1 - v)
      ∧ (∀ v ∈ values, 1 - v ≤ max_drawdown_col values)
      ∧ 0 ≤ max_drawdown_col values := by
  refine ⟨⟨listMin values, listMin_mem values (by intro h; rw [h] at h1; cases h1), rfl⟩,
    ?_, ?_⟩
  · intro v hv
    have := listMin_le values v hv
    unfold max_drawdown_col
    linarith
  · have := listMin_le values 1 h1
    unfold max_drawdown_col
    linarith

/-- Witness for C4: the column `[1.2, 1, 0.7]` contains the anchor value, its
drawdown is `0.3 = 1 - 0.7`, dominates `1 - v` for each value, and is
non-negative. -/
theorem max_drawdown_col_spec_witness :
    (∃ v ∈ [(12 : ℚ)/10, 1, 7/10], max_drawdown_col [(12 : ℚ)/10, 1, 7/10] = 1 - v)
      ∧ (∀ v ∈ [(12 : ℚ)/10, 1, 7/10], 1 - v ≤ max_drawdown_col [(12 : ℚ)/10, 1, 7/10])
      ∧ 0 ≤ max_drawdown_col [(12 : ℚ)/10, 1, 7/10] :=
  max_drawdown_col_spec [(12 : ℚ)/10, 1, 7/10] (by norm_num)

/-! Helper lemmas about period returns and the covariance algebra. -/

theorem returnsOf_eq (prices : List ℚ) :
    returnsOf prices = List.zipWith (fun a b => b / a - 1) prices prices.tail := by
  cases prices with
  | nil => rfl
  | cons v rest =>
    show dropna (none :: List.zipWith (fun a b => some (b / a - 1)) (v :: rest) rest) = _
    unfold dropna
    rw [List.filterMap_cons_none rfl]
    have : List.zipWith (fun a b => some (b / a - 1)) (v :: rest) rest
        = (List.zipWith (fun a b => b / a - 1) (v :: rest) rest).map some := by
      rw [List.map_zipWith]
    rw [this, List.filterMap_map]
    simp

theorem zipWith_length (f : ℚ → ℚ → ℚ) :
    ∀ (l1 l2 : List ℚ), (List.zipWith f l1 l2).length = min l1.length l2.length := by
  intro l1
  induction l1 with
  | nil => intro l2; simp
  | cons x t ih =>
    intro l2
    cases l2 with
    | nil => simp
    | cons y s => simp [ih s, Nat.succ_min_succ]

theorem returnsOf_length (prices : List ℚ) :
    (returnsOf prices).length = prices.length - 1 := by
  rw [returnsOf_eq, zipWith_length]
  cases prices with
  | nil => rfl
  | cons v rest => simp

theorem zipWith_getD (f : ℚ → ℚ → ℚ) :
    ∀ (l1 l2 : List ℚ) (i : Nat), i < l1.length → i < l2.length →
      (List.zipWith f l1 l2).getD i 0 = f (l1.getD i 0) (l2.getD i 0) := by
  intro l1
  induction l1 with
  | nil => intro l2 i h1 _; cases h1
  | cons x t ih =>
    intro l2 i h1 h2
    cases l2 with
    | nil => cases h2
    | cons y s =>
      cases i with
      | zero => rfl
      | succ j =>
        show (List.zipWith f t s).getD j 0 = f (t.getD j 0) (s.getD j 0)
        exact ih s j (Nat.lt_of_succ_lt_succ h1) (Nat.lt_of_succ_lt_succ h2)

theorem sum_map_mul_left_comp (k : ℚ) (f : ℚ → ℚ) :
    ∀ l : List ℚ, (l.map fun x => k * f x).sum = k * (l.map f).sum := by
  intro l
  induction l with
  | nil => simp
  | cons x t ih =>
    simp only [List.map_cons, List.sum_cons, ih]
    ring

theorem sum_map_mul_left_id (k : ℚ) :
    ∀ l : List ℚ, (l.map fun x => k * x).sum = k * l.sum := by
  intro l
  induction l with
  | nil => simp
  | cons x t ih =>
    simp only [List.map_cons, List.sum_cons, ih]
    ring

theorem zipWith_self (f : ℚ → ℚ → ℚ) :
    ∀ l : List ℚ, List.zipWith f l l = l.map fun x => f x x := by
  intro l
  induction l with
  | nil => rfl
  | cons x t ih => simp only [List.zipWith_cons_cons, List.map_cons, ih]

theorem mean_map_mul_left (k : ℚ) (l : List ℚ) :
    mean (l.map fun x => k * x) = k * mean l := by
  unfold mean
  rw [List.length_map, sum_map_mul_left_id, mul_div_assoc]

theorem covar_map_mul_left (k : ℚ) (l : List ℚ) :
    covar (l.map fun x => k * x) l = k * covar l l := by
  unfold covar
  rw [List.zipWith_map_left, zipWith_self, zipWith_self, List.length_map,
    mean_map_mul_left]
  have hmap : (l.map fun x => (k * x - k * mean l) * (x - mean l))
      = l.map fun x => k * ((x - mean l) * (x - mean l)) := by
    apply List.map_congr_left
    intro x _
    ring
  rw [hmap, sum_map_mul_left_comp, mul_div_assoc]

/-- C8: the period returns that `compute_beta` feeds into the covariance and
variance (`returnsOf`, the embedding of `window.pct_change().dropna()` on a
fully populated raw slice) are the first differences of price ratios with
exactly the first, undefined row dropped: they are the consecutive-ratio list,
their count is one less than the slice's row count, and the i-th observation
comes from rows i and i+1 of the slice. -/
theorem compute_beta_return_rows (prices : List ℚ) :
    returnsOf prices = List.zipWith (fun a b => b / a - 1) prices prices.tail
      ∧ (returnsOf prices).length = prices.length - 1
      ∧ ∀ i : Nat, i + 1 < prices.length →
          (returnsOf prices).getD i 0 = prices.getD (i + 1) 0 / prices.getD i 0 - 1 := by
  refine ⟨returnsOf_eq prices, returnsOf_length prices, ?_⟩
  intro i hi
  have htail : prices.tail.getD i 0 = prices.getD (i + 1) 0 := by
    cases prices with
    | nil => simp at hi
    | cons v rest => rfl
  have h2 : i < prices.tail.length := by
    rw [List.length_tail]
    omega
  rw [returnsOf_eq, zipWith_getD _ _ _ i (by omega) h2, htail]

/-- Witness for C8: on the raw prices `[1, 2, 4]` the first return observation
is `2/1 - 1` and there are exactly two observations. -/
theorem compute_beta_return_rows_witness :
    (returnsOf [(1 : ℚ), 2, 4]).getD 0 0
        = ([(1 : ℚ), 2, 4].getD (0 + 1) 0) / ([(1 : ℚ), 2, 4].getD 0 0) - 1
      ∧ (returnsOf [(1 : ℚ), 2, 4]).length = [(1 : ℚ), 2, 4].length - 1 :=
  ⟨(compute_beta_return_rows [(1 : ℚ), 2, 4]).2.2 0 (by norm_num),
   (compute_beta_return_rows [(1 : ℚ), 2, 4]).2.1⟩

/-- C3: whenever a sector's period returns are exactly `k` times the market's
period returns and the market's return variance is non-zero, `compute_beta`
returns exactly `k` (so in particular within `1e-6` of `k`). -/
theorem compute_beta_scaled (sector market : List ℚ) (k : ℚ)
    (hk : returnsOf sector = (returnsOf market).map fun r => k * r)
    (hvar : covar (returnsOf market) (returnsOf market) ≠ 0) :
    compute_beta sector market = k := by
  unfold compute_beta
  rw [hk, covar_map_mul_left, mul_div_assoc, div_self hvar, mul_one]

/-- Witness for C3: scenario B of the specification, where the market's
period returns are `[0.01, 0.02, 0.03]` and the sector's are exactly double,
gives beta exactly 2. -/
theorem compute_beta_scaled_witness :
    compute_beta scenarioB_sector scenarioB_market = 2 :=
  compute_beta_scaled scenarioB_sector scenarioB_market 2
    (by rw [returnsOf_eq, returnsOf_eq]; norm_num [scenarioB_sector, scenarioB_market])
    (by rw [returnsOf_eq]; norm_num [scenarioB_market, covar, mean])

/-- C2: on a slice with at least two rows that passes the anchor check,
`compute_metrics` returns, for a column whose first visible value is `v0` and
last visible value is `vN`, exactly `pre_return = 1/v0 - 1` and
`post_return = vN - 1`, computed from the rows visible in the slice. -/
theorem compute_metrics_formula (cols : List (String × List ℚ)) (t : String) (vs : List ℚ)
    (v0 vN : ℚ) (hmem : (t, vs) ∈ cols) (_hlen : 2 ≤ vs.length)
    (h0 : vs.head? = some v0) (hN : vs.getLast? = some vN)
    (hanchor : (cols.any fun c => c.2.any isCloseOne) = true) :
    ∃ res, compute_metrics cols = some res ∧ (t, 1 / v0 - 1, vN - 1) ∈ res := by
  refine ⟨cols.map fun c => (c.1, 1 / c.2.headD 0 - 1, c.2.getLastD 0 - 1), ?_, ?_⟩
  · unfold compute_metrics
    rw [if_pos hanchor]
  · have h0' : vs.headD 0 = v0 := by rw [List.headD_eq_head?_getD, h0]; rfl
    have hN' : vs.getLastD 0 = vN := by rw [List.getLastD_eq_getLast?, hN]; rfl
    exact List.mem_map.mpr ⟨(t, vs), hmem, by simp [h0, hN]⟩

/-- Witness for C2: on the single-column slice `[1/2, 1, 2]` the returned pair
is `pre_return = 1/(1/2) - 1` and `post_return = 2 - 1`. -/
theorem compute_metrics_formula_witness :
    ∃ res, compute_metrics [("X", [(1 : ℚ)/2, 1, 2])] = some res
      ∧ ("X", 1 / ((1 : ℚ)/2) - 1, (2 : ℚ) - 1) ∈ res :=
  compute_metrics_formula [("X", [(1 : ℚ)/2, 1, 2])] "X" [(1 : ℚ)/2, 1, 2] ((1 : ℚ)/2) 2
    (by simp) (by norm_num) rfl rfl (by norm_num [isCloseOne])

/-- Counterexample for C7: a slice whose every entry is `1 + 1e-6` has no row
within `1e-9` of `1.0`, yet `compute_metrics` proceeds without raising,
because the source's check is `np.isclose` with tolerance `1e-8 + 1e-5`. -/
theorem anchor_check_not_1e9_cex :
    (¬ (|((1 : ℚ) + 1/1000000) - 1| ≤ 1/1000000000))
      ∧ compute_metrics [("X", [(1 : ℚ) + 1/1000000, 1 + 1/1000000])] ≠ none := by
  have habs : |((1 : ℚ) + 1/1000000) - 1| = 1/1000000 := by
    rw [show ((1 : ℚ) + 1/1000000) - 1 = 1/1000000 from by norm_num]
    exact abs_of_pos (by norm_num)
  constructor
  · rw [habs]
    norm_num
  · have habs2 : |(1 : ℚ) / 1000000| = 1/1000000 := abs_of_pos (by norm_num)
    norm_num [compute_metrics, isCloseOne, habs, habs2]
    intro h
    cases h

/-- C7 as amended: `compute_metrics` fails with the `AnchorNotFound` error if
and only if no entry of the slice is within the `np.isclose` default tolerance
`1e-8 + 1e-5` of `1.0`; any entry within `1e-9` of `1.0` is in particular
within that tolerance, so the computation then proceeds. -/
theorem compute_metrics_none_iff (cols : List (String × List ℚ)) :
    compute_metrics cols = none ↔ ∀ c ∈ cols, ∀ v ∈ c.2, isCloseOne v = false := by
  unfold compute_metrics
  constructor
  · intro hnone c hc v hv
    cases hcv : isCloseOne v with
    | false => rfl
    | true =>
      exfalso
      have hany : (cols.any fun c => c.2.any isCloseOne) = true :=
        List.any_eq_true.mpr ⟨c, hc, List.any_eq_true.mpr ⟨v, hv, hcv⟩⟩
      rw [if_pos hany] at hnone
      cases hnone
  · intro hall
    have hany : ¬ ((cols.any fun c => c.2.any isCloseOne) = true) := by
      intro hany
      rcases List.any_eq_true.mp hany with ⟨c, hc, hcc⟩
      rcases List.any_eq_true.mp hcc with ⟨v, hv, hvv⟩
      rw [hall c hc v hv] at hvv
      cases hvv
    rw [if_neg hany]

/-- Counterexample for C6: the slice with rows at offsets `-1` and `0` has
fewer than two rows at offsets at least 0, yet the zoom callback does not
report insufficiency (the slice has two rows, its only check), builds the
summary, and the volatility entry silently comes out as `NaN` rather than an
`InsufficientWindow` report. -/
theorem post_vol_unflagged_cex :
    (([((-1 : Int), (2 : ℚ)), (0, 1)].filter fun p => decide (0 ≤ p.1)).length < 2)
      ∧ update_reports_insufficient ([((-1 : Int), (2 : ℚ)), (0, 1)]).length = false
      ∧ update_builds_summary ([((-1 : Int), (2 : ℚ)), (0, 1)]).length = true
      ∧ post_event_volatility [((-1 : Int), (2 : ℚ)), (0, 1)] = none := by
  refine ⟨by decide, by decide, by decide, ?_⟩
  have hc : (returnsOf (([((-1 : Int), (2 : ℚ)), (0, 1)].filter
      fun p => decide (0 ≤ p.1)).map Prod.snd)).length ≤ 1 := by
    rw [returnsOf_length]
    decide
  unfold post_event_volatility
  rw [if_pos hc]

/-- C6 as amended: on a slice with at least two rows but fewer than two rows
at offsets at least 0, the volatility computation yields no numeric value
(`NaN`, never a fabricated number), but the pipeline does not flag it as
insufficient: the only insufficiency report keys on the total visible row
count, so the summary is still built with a missing volatility entry. -/
theorem post_vol_nan_when_few_post_rows (rows : List (Int × ℚ))
    (hlen : 2 ≤ rows.length)
    (hpost : (rows.filter fun p => decide (0 ≤ p.1)).length < 2) :
    post_event_volatility rows = none
      ∧ update_reports_insufficient rows.length = false
      ∧ update_builds_summary rows.length = true := by
  refine ⟨?_, ?_, ?_⟩
  · have hc : (returnsOf ((rows.filter fun p => decide (0 ≤ p.1)).map Prod.snd)).length ≤ 1 := by
      rw [returnsOf_length, List.length_map]
      omega
    unfold post_event_volatility
    rw [if_pos hc]
  · simp only [update_reports_insufficient, decide_eq_false_iff_not]
    omega
  · simp only [update_builds_summary, decide_eq_true_eq]
    omega

/-- Witness for C6's amended statement: the slice with rows at offsets `-1`
and `0` satisfies both hypotheses and exhibits the unflagged missing
volatility. -/
theorem post_vol_nan_when_few_post_rows_witness :
    post_event_volatility [((-1 : Int), (2 : ℚ)), (0, 1)] = none
      ∧ update_reports_insufficient ([((-1 : Int), (2 : ℚ)), (0, 1)]).length = false
      ∧ update_builds_summary ([((-1 : Int), (2 : ℚ)), (0, 1)]).length = true :=
  post_vol_nan_when_few_post_rows [((-1 : Int), (2 : ℚ)), (0, 1)] (by decide) (by decide)

/-! Helper lemmas for the recommendation picks and the label selection. -/

theorem pickMin_le_all {α : Type} (l : List (α × ℚ)) (b : α × ℚ) :
    ∀ q ∈ b :: l, (pickMin b l).2 ≤ q.2 := by
  intro q hq
  rcases List.mem_cons.mp hq with h | h
  · rw [h]; exact pickMin_le_start l b
  · exact pickMin_le l b q h

theorem pickMax_ge_start {α : Type} :
    ∀ (l : List (α × ℚ)) (b : α × ℚ), b.2 ≤ (pickMax b l).2 := by
  intro l
  induction l with
  | nil => intro b; exact le_refl _
  | cons q t ih =>
    intro b
    by_cases h : b.2 < q.2
    · rw [pickMax, if_pos h]; exact le_trans (le_of_lt h) (ih q)
    · rw [pickMax, if_neg h]; exact ih b

theorem pickMax_ge {α : Type} :
    ∀ (l : List (α × ℚ)) (b : α × ℚ), ∀ q ∈ l, q.2 ≤ (pickMax b l).2 := by
  intro l
  induction l with
  | nil => intro b q hq; cases hq
  | cons q0 t ih =>
    intro b q hq
    rcases List.mem_cons.mp hq with h | h
    · by_cases hc : b.2 < q0.2
      · rw [pickMax, if_pos hc, h]; exact pickMax_ge_start t q0
      · rw [pickMax, if_neg hc, h]
        exact le_trans (le_of_not_lt hc) (pickMax_ge_start t b)
    · by_cases hc : b.2 < q0.2
      · rw [pickMax, if_pos hc]; exact ih q0 q h
      · rw [pickMax, if_neg hc]; exact ih b q h

theorem pickMax_ge_all {α : Type} (l : List (α × ℚ)) (b : α × ℚ) :
    ∀ q ∈ b :: l, q.2 ≤ (pickMax b l).2 := by
  intro q hq
  rcases List.mem_cons.mp hq with h | h
  · rw [h]; exact pickMax_ge_start l b
  · exact pickMax_ge l b q h

theorem pickMax_eq_or {α : Type} :
    ∀ (l : List (α × ℚ)) (b : α × ℚ), pickMax b l = b ∨ pickMax b l ∈ l := by
  intro l
  induction l with
  | nil => intro b; left; rfl
  | cons q t ih =>
    intro b
    by_cases h : b.2 < q.2
    · rw [pickMax, if_pos h]
      rcases ih q with h1 | h1
      · right; rw [h1]; exact List.mem_cons_self _ _
      · right; exact List.mem_cons_of_mem _ h1
    · rw [pickMax, if_neg h]
      rcases ih b with h1 | h1
      · left; exact h1
      · right; exact List.mem_cons_of_mem _ h1

theorem pickMax_mem_cons {α : Type} (l : List (α × ℚ)) (b : α × ℚ) :
    pickMax b l ∈ b :: l := by
  rcases pickMax_eq_or l b with h | h
  · rw [h]; exact List.mem_cons_self _ _
  · exact List.mem_cons_of_mem _ h

theorem seriesSelect_missing (s : List (String × ℚ)) :
    ∀ (labels : List String) (t : String), t ∈ labels →
      (s.find? fun p => p.1 == t) = none → seriesSelect s labels = none := by
  intro labels
  induction labels with
  | nil => intro t ht _; cases ht
  | cons a ls ih =>
    intro t ht hf
    rcases List.mem_cons.mp ht with h | h
    · subst h
      unfold seriesSelect
      rw [hf]
    · unfold seriesSelect
      cases hfa : s.find? fun p => p.1 == a with
      | none => rfl
      | some p => rw [ih t h hf]; rfl

/-- C5: on a non-empty summary table, the recommendation step returns picks
where the defensive ticker attains the minimum volatility, the growth ticker
attains the maximum post-event return, and the fastest-recovery pick is the
minimiser of `days_to_recovery` over the rows with a finite value - it is
`null` exactly when every row's value is the unbounded sentinel, in which case
the other two picks are still produced. -/
theorem print_recommendations_spec (summary : List (String × SummaryRow))
    (hne : summary ≠ []) :
    ∃ r, print_recommendations summary = some r
      ∧ (∃ d row, r.defensive = some d ∧ (d, row) ∈ summary
          ∧ ∀ q ∈ summary, row.volatility ≤ q.2.volatility)
      ∧ (∃ g row, r.growth = some g ∧ (g, row) ∈ summary
          ∧ ∀ q ∈ summary, q.2.post_return ≤ row.post_return)
      ∧ ((∀ q ∈ summary, q.2.days_to_recovery = none) → r.fastest = none)
      ∧ (∀ q0 ∈ summary, ∀ d0 : Int, q0.2.days_to_recovery = some d0 →
          ∃ f rowf, ∃ df : Int, r.fastest = some f ∧ (f, rowf) ∈ summary
            ∧ rowf.days_to_recovery = some df
            ∧ ∀ q ∈ summary, ∀ dq : Int, q.2.days_to_recovery = some dq → df ≤ dq) := by
  obtain ⟨s, ss, rfl⟩ : ∃ s ss, summary = s :: ss := by
    cases summary with
    | nil => exact absurd rfl hne
    | cons s ss => exact ⟨s, ss, rfl⟩
  refine ⟨_, rfl, ?_, ?_, ?_, ?_⟩
  · -- defensive: first minimiser of volatility
    rcases List.mem_map.mp
        (show pickMin (s.1, s.2.volatility)
            (ss.map fun p : String × SummaryRow => (p.1, p.2.volatility))
            ∈ (s :: ss).map (fun p : String × SummaryRow => (p.1, p.2.volatility)) from
          pickMin_mem_cons _ _)
      with ⟨porig, hporig, hpeq⟩
    have h1 : porig.1 = (pickMin (s.1, s.2.volatility)
        (ss.map fun p : String × SummaryRow => (p.1, p.2.volatility))).1 :=
      congrArg Prod.fst hpeq
    have hdef : idxmin ((s :: ss).map fun p : String × SummaryRow => (p.1, p.2.volatility))
        = some porig.1 := by
      rw [h1]
      rfl
    have hmin : ∀ q ∈ s :: ss, porig.2.volatility ≤ q.2.volatility := by
      intro q hq
      have hv : porig.2.volatility = (pickMin (s.1, s.2.volatility)
          (ss.map fun p : String × SummaryRow => (p.1, p.2.volatility))).2 :=
        congrArg Prod.snd hpeq
      rw [hv]
      exact pickMin_le_all (ss.map fun p : String × SummaryRow => (p.1, p.2.volatility))
        (s.1, s.2.volatility) (q.1, q.2.volatility)
        (show (q.1, q.2.volatility)
            ∈ (s :: ss).map (fun p : String × SummaryRow => (p.1, p.2.volatility)) from
          List.mem_map.mpr ⟨q, hq, rfl⟩)
    exact ⟨porig.1, porig.2, hdef, hporig, hmin⟩
  · -- growth: first maximiser of post_return
    rcases List.mem_map.mp
        (show pickMax (s.1, s.2.post_return)
            (ss.map fun p : String × SummaryRow => (p.1, p.2.post_return))
            ∈ (s :: ss).map (fun p : String × SummaryRow => (p.1, p.2.post_return)) from
          pickMax_mem_cons _ _)
      with ⟨porig, hporig, hpeq⟩
    have h1 : porig.1 = (pickMax (s.1, s.2.post_return)
        (ss.map fun p : String × SummaryRow => (p.1, p.2.post_return))).1 :=
      congrArg Prod.fst hpeq
    have hgro : idxmax ((s :: ss).map fun p : String × SummaryRow => (p.1, p.2.post_return))
        = some porig.1 := by
      rw [h1]
      rfl
    have hmax : ∀ q ∈ s :: ss, q.2.post_return ≤ porig.2.post_return := by
      intro q hq
      have hv : porig.2.post_return = (pickMax (s.1, s.2.post_return)
          (ss.map fun p : String × SummaryRow => (p.1, p.2.post_return))).2 :=
        congrArg Prod.snd hpeq
      rw [hv]
      exact pickMax_ge_all (ss.map fun p : String × SummaryRow => (p.1, p.2.post_return))
        (s.1, s.2.post_return) (q.1, q.2.post_return)
        (show (q.1, q.2.post_return)
            ∈ (s :: ss).map (fun p : String × SummaryRow => (p.1, p.2.post_return)) from
          List.mem_map.mpr ⟨q, hq, rfl⟩)
    exact ⟨porig.1, porig.2, hgro, hporig, hmax⟩
  · -- all unbounded: no fastest pick
    intro hall
    have hnil : ((s :: ss).filterMap fun p : String × SummaryRow =>
        p.2.days_to_recovery.map fun d => (p.1, (Int.cast d : ℚ))) = [] := by
      rw [List.filterMap_eq_nil_iff]
      intro a ha
      rw [hall a ha]
      rfl
    show idxmin ((s :: ss).filterMap fun p : String × SummaryRow =>
        p.2.days_to_recovery.map fun d => (p.1, (Int.cast d : ℚ))) = none
    rw [hnil]
    rfl
  · -- some finite entry: fastest is the first minimiser over finite entries
    intro q0 hq0 d0 hd0
    have hq0f : (q0.1, (Int.cast d0 : ℚ)) ∈ (s :: ss).filterMap
        fun p : String × SummaryRow =>
          p.2.days_to_recovery.map fun d => (p.1, (Int.cast d : ℚ)) :=
      List.mem_filterMap.mpr ⟨q0, hq0, by rw [hd0]; rfl⟩
    obtain ⟨p, t, hpt⟩ : ∃ p t, ((s :: ss).filterMap fun p : String × SummaryRow =>
        p.2.days_to_recovery.map fun d => (p.1, (Int.cast d : ℚ))) = p :: t := by
      cases hfm : (s :: ss).filterMap fun p : String × SummaryRow =>
          p.2.days_to_recovery.map fun d => (p.1, (Int.cast d : ℚ)) with
      | nil => rw [hfm] at hq0f; cases hq0f
      | cons p t => exact ⟨p, t, rfl⟩
    have hmem : pickMin p t ∈ ((s :: ss).filterMap fun p : String × SummaryRow =>
        p.2.days_to_recovery.map fun d => (p.1, (Int.cast d : ℚ))) := by
      rw [hpt]
      exact pickMin_mem_cons _ _
    rcases List.mem_filterMap.mp hmem with ⟨a, ha, hae⟩
    rcases Option.map_eq_some'.mp hae with ⟨da, hda, haeq⟩
    have h1 : a.1 = (pickMin p t).1 := congrArg Prod.fst haeq
    have hfastr : idxmin ((s :: ss).filterMap fun p : String × SummaryRow =>
        p.2.days_to_recovery.map fun d => (p.1, (Int.cast d : ℚ))) = some a.1 := by
      rw [h1, hpt]
      rfl
    have hminf : ∀ q ∈ s :: ss, ∀ dq : Int, q.2.days_to_recovery = some dq → da ≤ dq := by
      intro q hq dq hdq
      have hqf : (q.1, (Int.cast dq : ℚ)) ∈ p :: t := by
        rw [← hpt]
        exact List.mem_filterMap.mpr ⟨q, hq, by rw [hdq]; rfl⟩
      have hle : (pickMin p t).2 ≤ (Int.cast dq : ℚ) :=
        pickMin_le_all t p (q.1, (Int.cast dq : ℚ)) hqf
      have hda2 : (Int.cast da : ℚ) = (pickMin p t).2 := congrArg Prod.snd haeq
      have hcast : (Int.cast da : ℚ) ≤ (Int.cast dq : ℚ) := by
        rw [hda2]
        exact hle
      exact_mod_cast hcast
    exact ⟨a.1, a.2, da, hfastr, ha, hda, hminf⟩

/-- Witness for C5: a three-ticker summary with distinct volatilities, post
returns and one unbounded recovery satisfies the hypothesis, and the theorem
yields the picks. -/
theorem print_recommendations_spec_witness :
    ∃ r, print_recommendations
        [("A", ⟨3, 1, some 5⟩), ("B", ⟨1, 2, some 3⟩), ("C", ⟨2, 3, none⟩)] = some r
      ∧ (∃ d row, r.defensive = some d
          ∧ (d, row) ∈ [("A", (⟨3, 1, some 5⟩ : SummaryRow)), ("B", ⟨1, 2, some 3⟩), ("C", ⟨2, 3, none⟩)]
          ∧ ∀ q ∈ [("A", (⟨3, 1, some 5⟩ : SummaryRow)), ("B", ⟨1, 2, some 3⟩), ("C", ⟨2, 3, none⟩)],
              row.volatility ≤ q.2.volatility)
      ∧ (∃ g row, r.growth = some g
          ∧ (g, row) ∈ [("A", (⟨3, 1, some 5⟩ : SummaryRow)), ("B", ⟨1, 2, some 3⟩), ("C", ⟨2, 3, none⟩)]
          ∧ ∀ q ∈ [("A", (⟨3, 1, some 5⟩ : SummaryRow)), ("B", ⟨1, 2, some 3⟩), ("C", ⟨2, 3, none⟩)],
              q.2.post_return ≤ row.post_return)
      ∧ ((∀ q ∈ [("A", (⟨3, 1, some 5⟩ : SummaryRow)), ("B", ⟨1, 2, some 3⟩), ("C", ⟨2, 3, none⟩)],
            q.2.days_to_recovery = none) → r.fastest = none)
      ∧ (∀ q0 ∈ [("A", (⟨3, 1, some 5⟩ : SummaryRow)), ("B", ⟨1, 2, some 3⟩), ("C", ⟨2, 3, none⟩)],
          ∀ d0 : Int, q0.2.days_to_recovery = some d0 →
          ∃ f rowf, ∃ df : Int, r.fastest = some f
            ∧ (f, rowf) ∈ [("A", (⟨3, 1, some 5⟩ : SummaryRow)), ("B", ⟨1, 2, some 3⟩), ("C", ⟨2, 3, none⟩)]
            ∧ rowf.days_to_recovery = some df
            ∧ ∀ q ∈ [("A", (⟨3, 1, some 5⟩ : SummaryRow)), ("B", ⟨1, 2, some 3⟩), ("C", ⟨2, 3, none⟩)],
                ∀ dq : Int, q.2.days_to_recovery = some dq → df ≤ dq) :=
  print_recommendations_spec
    [("A", ⟨3, 1, some 5⟩), ("B", ⟨1, 2, some 3⟩), ("C", ⟨2, 3, none⟩)] (by decide)

/-- C10: if a configured non-market ticker has no column in the normalised
slice, `max_drawdown` raises a `KeyError` when selecting it, and
`build_summary`, which invokes it with the full configured list, fails the
same way - in contrast with its silent exclusion of tickers missing from the
metrics index. -/
theorem max_drawdown_missing_ticker (metricsIndex : List String)
    (normCols : List (String × List ℚ)) (tickers : List String) (t : String)
    (ht : t ∈ tickers) (hmiss : ∀ c ∈ normCols, c.1 ≠ t) :
    max_drawdown normCols tickers = none
      ∧ build_summary metricsIndex normCols tickers = none := by
  have hf : ((normCols.map fun c => (c.1, max_drawdown_col c.2)).find?
      fun p => p.1 == t) = none := by
    rw [List.find?_eq_none]
    intro x hx
    rcases List.mem_map.mp hx with ⟨c, hc, hcx⟩
    rw [← hcx]
    simp only [beq_iff_eq]
    exact hmiss c hc
  have h1 : max_drawdown normCols tickers = none := seriesSelect_missing _ tickers t ht hf
  refine ⟨h1, ?_⟩
  unfold build_summary
  rw [h1]
  rfl

/-- Witness for C10: with configured non-market tickers `["XLE", "XLK"]` and a
slice that only has an `XLE` column, both computations fail. -/
theorem max_drawdown_missing_ticker_witness :
    max_drawdown [("XLE", [(1 : ℚ)])] ["XLE", "XLK"] = none
      ∧ build_summary ["XLE"] [("XLE", [(1 : ℚ)])] ["XLE", "XLK"] = none :=
  max_drawdown_missing_ticker ["XLE"] [("XLE", [(1 : ℚ)])] ["XLE", "XLK"] "XLK"
    (by decide) (by decide)

end YF
